import Mathlib

/-!
Shallow embedding of `src/python/dnfdaemon/server/__init__.py` (module
`dnfdaemon.server`), the backend facade of the dnf daemon.  Python strings
that are parsed or joined are modelled as lists of characters (`PyStr`);
machine-level details of the wrapped dnf library (dependency solving,
repository IO) are modelled as data supplied to the functions, matching the
spec's description of the library as an opaque collaborator.
-/

namespace Dnfdaemon

/-- Python strings, modelled as lists of characters. -/
abbrev PyStr := List Char

/-! ## Python `str.split(',')` and `','.join(...)` -/

/-- Helper for `splitOnComma`: scans the characters, accumulating the current
field in reverse. Models CPython `str.split(',')`. -/
def splitOnCommaAux : List Char → List Char → List PyStr
  | [], acc => [acc.reverse]
  | c :: cs, acc =>
    if c = ',' then acc.reverse :: splitOnCommaAux cs []
    else splitOnCommaAux cs (c :: acc)

/-- Python `s.split(',')`. -/
def splitOnComma (s : PyStr) : List PyStr := splitOnCommaAux s []

/-- Python `','.join(parts)`. -/
def joinComma : List PyStr → PyStr
  | [] => []
  | [x] => x
  | x :: y :: xs => x ++ ',' :: joinComma (y :: xs)

/-! ## Python `str(int)` -/

/-- Decimal digit character, `digitChar d = chr(48 + d)` for `d < 10`. -/
def digitChar (d : Nat) : Char := Char.ofNat (48 + d)

/-- Accumulate the decimal digits of `n` (most significant first) in front of
`acc`. -/
def natDigitsAux (n : Nat) (acc : List Char) : List Char :=
  if h : n = 0 then acc
  else natDigitsAux (n / 10) (digitChar (n % 10) :: acc)
termination_by n
decreasing_by exact Nat.div_lt_self (Nat.pos_of_ne_zero h) (by decide)

/-- Python `str(n)` for a natural number. -/
def natStr (n : Nat) : PyStr := if n = 0 then ['0'] else natDigitsAux n []

/-- Python `str(i)` for an integer. -/
def intStr : Int → PyStr
  | .ofNat n => natStr n
  | .negSucc n => '-' :: natStr (n + 1)

/-! ## Packages and package ids -/

/-- A package object of the wrapped dnf library, restricted to the fields the
daemon reads.  `attrs` models the remaining Python attributes of the package
object as a name/value association list (values kept abstract as strings). -/
structure Pkg where
  name : PyStr
  epoch : Int
  version : PyStr
  release : PyStr
  arch : PyStr
  ui_from_repo : PyStr
  size : Int
  attrs : List (String × String)
deriving DecidableEq, Repr

/-- `DnfDaemonBase._get_id`: comma-join of name, str(epoch), version, release,
arch and ui_from_repo. -/
def _get_id (pkg : Pkg) : PyStr :=
  joinComma [pkg.name, intStr pkg.epoch, pkg.version, pkg.release,
             pkg.arch, pkg.ui_from_repo]

/-! ## C1: run_transaction result classification -/

/-- Outcome of the download / signature-check / do_transaction sequence inside
`run_transaction`, as observed by its `except` clauses.  `downloadErr` carries
the optional `errmap` (a file-name to message-list map) of a dnf
`DownloadError`; the other constructors carry the stringified exception. -/
inductive TransOutcome where
  | success
  | downloadErr (errmap : Option (List (String × List String))) (text : String)
  | gpgErr (text : String)
  | otherErr (text : String)
deriving DecidableEq, Repr

/-- The `for fn in msgs: for msg in msgs[fn]` flattening of a download error
map into `"fn : msg"` strings, from the `DownloadError` handler of
`run_transaction`. -/
def downloadErrMsgs (errmap : List (String × List String)) : List String :=
  errmap.flatMap (fun fn => fn.2.map (fun msg => fn.1 ++ " : " ++ msg))

/-- `DnfDaemonBase.run_transaction`: the `(rc, msgs)` pair that the method
passes to `json.dumps` just before returning, as a function of the outcome of
the wrapped-library calls it guards. -/
def run_transaction : TransOutcome → Nat × List String
  | .success => (0, [])
  | .downloadErr (some em) _ => (4, downloadErrMsgs em)
  | .downloadErr none text => (4, [text])
  | .gpgErr text => (1, [text])
  | .otherErr text => (2, [text])

/-! ## C2: get_transaction / _get_transaction -/

/-- The five `dnf.transaction` operation types dispatched on by
`_get_transaction` (DOWNGRADE, ERASE, INSTALL, REINSTALL, UPGRADE). -/
inductive OpType where
  | downgrade
  | erase
  | install
  | reinstall
  | upgrade
deriving DecidableEq, Repr

/-- A transaction item (`tsi`) of the wrapped library: its operation type, the
packages playing the `installed` and `erased` roles, and the obsoleted
packages. -/
structure TSItem where
  op_type : OpType
  installed : Pkg
  erased : Pkg
  obsoleted : List Pkg
deriving DecidableEq, Repr

/-- `_active_pkg`: the package taking the active role, via `_ACTIVE_DCT`
(`erased` for ERASE, `installed` otherwise). -/
def _active_pkg (tsi : TSItem) : Pkg :=
  match tsi.op_type with
  | .erase => tsi.erased
  | _ => tsi.installed

/-- The `tx_list[t]` bucket for one action: the transaction items with the
given op type, in transaction order. -/
def txGroup (ts : List TSItem) (op : OpType) : List TSItem :=
  ts.filter (fun t => decide (t.op_type = op))

/-- The action label used in the output tree of `_get_transaction`. -/
def actionLabel : OpType → String
  | .install => "install"
  | .upgrade => "update"
  | .erase => "remove"
  | .reinstall => "reinstall"
  | .downgrade => "downgrade"

/-- The fixed action order of the `build action tree` loop of
`_get_transaction`. -/
def actionOrder : List OpType :=
  [.install, .upgrade, .erase, .reinstall, .downgrade]

/-- The element `(self._get_id(po), size, alist)` built for one transaction
item: id of the active package, its size (Python converts it with `float`,
which is exact here) and the ids of the obsoleted packages. -/
def renderTsi (tsi : TSItem) : PyStr × Int × List PyStr :=
  let po := _active_pkg tsi
  (_get_id po, po.size, tsi.obsoleted.map _get_id)

/-- One iteration of the `build action tree` loop: extend `sublist` with the
rendered packages of this action, and if the package list is non-empty append
`[action, sublist]` to `out_list` and reset `sublist`. -/
def txStep (ts : List TSItem)
    (acc : List (String × List (PyStr × Int × List PyStr)) ×
           List (PyStr × Int × List PyStr))
    (op : OpType) :
    List (String × List (PyStr × Int × List PyStr)) ×
    List (PyStr × Int × List PyStr) :=
  let pkglist := txGroup ts op
  let sub := acc.2 ++ pkglist.map renderTsi
  if pkglist.isEmpty then (acc.1, sub)
  else (acc.1 ++ [(actionLabel op, sub)], [])

/-- `DnfDaemonBase._get_transaction`, as a function of the transaction items
of `self.base.transaction`. -/
def _get_transaction (ts : List TSItem) :
    List (String × List (PyStr × Int × List PyStr)) :=
  (actionOrder.foldl (txStep ts) ([], [])).1

/-- `DnfDaemonBase.get_transaction`: the `(rc, trans)` pair passed to
`json.dumps` (`rc = True` iff the list `trans` is truthy, i.e. non-empty). -/
def get_transaction (ts : List TSItem) :
    Bool × List (String × List (PyStr × Int × List PyStr)) :=
  let trans := _get_transaction ts
  (!trans.isEmpty, trans)

/-- Spec-side description of the transaction rendering (from the C2 claim
text): actions in the fixed order, an action present exactly when its group is
non-empty, each group mapped to rendered triples. -/
def get_transaction_spec (ts : List TSItem) :
    List (String × List (PyStr × Int × List PyStr)) :=
  actionOrder.filterMap (fun op =>
    let g := txGroup ts op
    if g.isEmpty then none else some (actionLabel op, g.map renderTsi))

/-! ## C3: the watchdog -/

/-- `self._timeout_idle` set in `__init__`. -/
def _timeout_idle : Nat := 20

/-- `self._timeout_locked` set in `__init__`. -/
def _timeout_locked : Nat := 600

/-- The daemon fields read and written by `_watchdog`.  `lock` is the
truthiness of `self._lock`, `base_isSome` the truthiness of `self._base`, and
`quit_called` records whether `mainloop_quit` has been invoked. -/
structure WatchdogState where
  lock : Bool
  is_working : Bool
  watchdog_disabled : Bool
  can_quit : Bool
  watchdog_count : Nat
  base_isSome : Bool
  quit_called : Bool
deriving DecidableEq, Repr

/-- `DnfDaemonBase._watchdog`: one tick.  Returns the updated state and the
boolean truthiness of the Python return value (`True` keeps the GLib timeout
scheduled; the implicit `None` of the terminate paths unschedules it). -/
def _watchdog (s : WatchdogState) : WatchdogState × Bool :=
  if s.watchdog_disabled || s.is_working then (s, true)
  else
    let terminate :=
      if !s.lock then decide (s.watchdog_count > _timeout_idle)
      else decide (s.watchdog_count > _timeout_locked)
    if terminate then
      if s.can_quit then
        ({ s with base_isSome := false, quit_called := true }, false)
      else (s, false)
    else ({ s with watchdog_count := s.watchdog_count + 1 }, true)

/-! ## C4, C5, C6: the base handle, repo enablement and config options

The wrapped library's objects are modelled as data: a config object and a
repo's option set are name/value association lists (Python `setattr` updates
an existing attribute or adds a new one; `hasattr` tests presence), a
repository has an id and an enabled flag, and `backend.DnfBase(self)` is
modelled by a `fresh : DnfBase` argument standing for the newly constructed
handle before the daemon applies its cached state to it. -/

/-- A dnf repository object: id, enabled flag and its remaining attributes. -/
structure RepoObj where
  id : String
  enabled : Bool
  attrs : List (String × String)
deriving DecidableEq, Repr

/-- Python `setattr(obj, k, v)` on an attribute association list: update every
binding of `k`, or append a new one. -/
def setAttrVal (l : List (String × String)) (k v : String) :
    List (String × String) :=
  if l.any (fun p => decide (p.1 = k)) then
    l.map (fun p => if p.1 = k then (k, v) else p)
  else l ++ [(k, v)]

/-- Python `hasattr(obj, k)`. -/
def hasAttr (l : List (String × String)) (k : String) : Bool :=
  l.any (fun p => decide (p.1 = k))

/-- Python `getattr(obj, k)`, as an option. -/
def getAttrVal (l : List (String × String)) (k : String) : Option String :=
  (l.find? (fun p => decide (p.1 = k))).map (fun p => p.2)

/-- The state of a `backend.DnfBase` handle as this module manipulates it:
its config attributes, its repositories, and whether `setup_base()` has
loaded the sack. -/
structure DnfBase where
  conf : List (String × String)
  repos : List RepoObj
  sack_loaded : Bool
deriving DecidableEq, Repr

/-- `base.setup_base()`: loads the sack. -/
def setup_base (b : DnfBase) : DnfBase :=
  ⟨b.conf, b.repos, true⟩

/-- The daemon fields used by `_get_base`, the `base` property,
`set_enabled_repos` and `set_option`. -/
structure CfgState where
  base? : Option DnfBase
  config_options : List (String × String)
  enabled_repos : List String
deriving DecidableEq, Repr

/-- The `for option in self._config_options: setattr(self._base.conf, ...)`
loop of `_get_base`. -/
def applyConfigOptions (opts : List (String × String)) (b : DnfBase) :
    DnfBase :=
  ⟨opts.foldl (fun c p => setAttrVal c p.1 p.2) b.conf, b.repos, b.sack_loaded⟩

/-- The repo enable/disable loop of `_get_base`: enable repos whose id is in
`ids`, disable the others. -/
def applyEnabledRepos (ids : List String) (b : DnfBase) : DnfBase :=
  ⟨b.conf,
   b.repos.map (fun r =>
     if ids.contains r.id then ⟨r.id, true, r.attrs⟩
     else ⟨r.id, false, r.attrs⟩),
   b.sack_loaded⟩

/-- `DnfDaemonBase._get_base(reset, load_sack)`: rebuild the handle when it
is unset or `reset` holds (apply cached options; apply the repo
enable/disable state when `self._enabled_repos` is non-empty; load the sack
when requested), otherwise return the stored handle. -/
def _get_base (fresh : DnfBase) (st : CfgState) (reset load_sack : Bool) :
    CfgState × DnfBase :=
  match st.base?, reset with
  | some b, false => (st, b)
  | _, _ =>
    let b0 := applyConfigOptions st.config_options fresh
    let b1 := if st.enabled_repos.isEmpty then b0
              else applyEnabledRepos st.enabled_repos b0
    let b2 := if load_sack then setup_base b1 else b1
    ({ st with base? := some b2 }, b2)

/-- The `base` property: call `_get_base()` (with default arguments
`reset=False, load_sack=True`) when `self._base` is unset, then return
`self._base`. -/
def baseProp (fresh : DnfBase) (st : CfgState) : CfgState × DnfBase :=
  match st.base? with
  | some b => (st, b)
  | none => _get_base fresh st false true

/-- The handle freshly built by `_get_base` from the cached daemon state
(before any sack loading), spelled out for the C4 statement. -/
def freshlyBuiltBase (fresh : DnfBase) (st : CfgState) : DnfBase :=
  let b0 := applyConfigOptions st.config_options fresh
  if st.enabled_repos.isEmpty then b0 else applyEnabledRepos st.enabled_repos b0

/-- `DnfDaemonBase.set_enabled_repos(repo_ids)`: store the list, reset the
handle, rebuild it without loading the sack, then `self._base.setup_base()`. -/
def set_enabled_repos (fresh : DnfBase) (st : CfgState)
    (repo_ids : List String) : CfgState :=
  let st1 : CfgState := ⟨none, st.config_options, repo_ids⟩
  let st2 := (_get_base fresh st1 true false).1
  match st2.base? with
  | some b => { st2 with base? := some (setup_base b) }
  | none => st2

/-- The `self._config_options[option] = value` cache write of `set_option`,
which happens before the `self.base` access. -/
def cacheOption (st : CfgState) (option value : String) : CfgState :=
  ⟨st.base?, setAttrVal st.config_options option value, st.enabled_repos⟩

/-- The base mutations of the `hasattr` branch of `set_option`:
`setattr(self.base.conf, option, value)` and the
`for repo in self.base.repos.iter_enabled(): if hasattr(repo, option)`
loop. -/
def setOptionBase (b : DnfBase) (option value : String) : DnfBase :=
  ⟨setAttrVal b.conf option value,
   b.repos.map (fun r =>
     if r.enabled && hasAttr r.attrs option then
       ⟨r.id, r.enabled, setAttrVal r.attrs option value⟩
     else r),
   b.sack_loaded⟩

/-- `DnfDaemonBase.set_option(option, value)` (Lean reserves that name, hence
`setOption`; the `value` argument is the
already JSON-decoded value): cache the value, then if the base config has the
attribute, set it there and on every enabled repo that has it, returning
`True`; otherwise return `False`.  Note the cache write happens before the
`self.base` access, so a lazily constructed handle already receives the new
option. -/
def setOption (fresh : DnfBase) (st : CfgState) (option value : String) :
    CfgState × Bool :=
  let stb := baseProp fresh (cacheOption st option value)
  if hasAttr stb.2.conf option then
    ({ stb.1 with base? := some (setOptionBase stb.2 option value) }, true)
  else (stb.1, false)

/-! ## C7: get_history_by_days -/

/-- A history transaction of the wrapped library: its id and its end
timestamp in epoch seconds (`none` models Python `None`). -/
structure HistTrans where
  tid : Nat
  end_timestamp : Option Int
deriving DecidableEq, Repr

/-- `delta.days` for `delta = now - datetime.fromtimestamp(t)`: floor
division of the elapsed seconds by 86400, matching Python `timedelta.days`. -/
def deltaDays (now t : Int) : Int := (now - t).fdiv 86400

/-- The scanning loop of `get_history_by_days`: skip entries whose
`end_timestamp` is falsy (`None` or `0`), skip entries younger than `start`
days, stop (`break`) at the first entry older than `dayEnd` days, collect the
rest. -/
def historyLoop (now dayStart dayEnd : Int) : List HistTrans → List HistTrans
  | [] => []
  | ht :: rest =>
    match ht.end_timestamp with
    | none => historyLoop now dayStart dayEnd rest
    | some t =>
      if t = 0 then historyLoop now dayStart dayEnd rest
      else if deltaDays now t < dayStart then historyLoop now dayStart dayEnd rest
      else if deltaDays now t > dayEnd then []
      else ht :: historyLoop now dayStart dayEnd rest

/-- `DnfDaemonBase._get_id_time_list`: map a history transaction to the pair
of its id and the ISO rendering of its end time.  `iso` stands for
`datetime.fromtimestamp(t).isoformat()` of the Python standard library; every
entry reaching this helper from the loop has a set timestamp, so the `getD`
default is never used. -/
def _get_id_time_list (iso : Int → String) (l : List HistTrans) :
    List (Nat × String) :=
  l.map (fun ht => (ht.tid, iso (ht.end_timestamp.getD 0)))

/-- `DnfDaemonBase.get_history_by_days(start, end)`, as a function of the
current time and the history list returned by
`self.base.history.old(complete_transactions_only=False)`. -/
def get_history_by_days (iso : Int → String) (now : Int)
    (history : List HistTrans) (dayStart dayEnd : Int) : List (Nat × String) :=
  _get_id_time_list iso (historyLoop now dayStart dayEnd history)

/-- A history transaction qualifying per the C7 claim: a truthy end timestamp
whose age in whole days lies between `dayStart` and `dayEnd` inclusive. -/
def histQualifies (now dayStart dayEnd : Int) (ht : HistTrans) : Bool :=
  match ht.end_timestamp with
  | none => false
  | some t =>
    decide (t ≠ 0) && decide (dayStart ≤ deltaDays now t) &&
      decide (deltaDays now t ≤ dayEnd)

/-- Ordering relation between two history entries: whenever both carry an end
timestamp, the first is at most as many whole days old as the second.  The
history list handed out by the wrapped library lists the newest transaction
first, so consecutive entries satisfy this. -/
def agesOrdered (now : Int) (a b : HistTrans) : Prop :=
  ∀ ta tb, a.end_timestamp = some ta → b.end_timestamp = some tb →
    deltaDays now ta ≤ deltaDays now tb

/-! ## C8, C9: _get_po, _get_id round trip and get_attribute -/

/-- The package sets backing `q.installed()` and `q.available()` of the sack
query used by `_get_po`. -/
structure Sack where
  installed : List Pkg
  available : List Pkg
deriving Repr

/-- The filter `f.filter(name=n, version=v, release=r, arch=a)` of
`_get_po`: note the epoch field of the id takes no part. -/
def pkgMatches (n v r a : PyStr) (p : Pkg) : Bool :=
  decide (p.name = n) && decide (p.version = v) &&
    decide (p.release = r) && decide (p.arch = a)

/-- `DnfDaemonBase._get_po(id)`.  `Except.error ()` models the `ValueError`
Python raises when `id.split(',')` does not have exactly six fields to
unpack; otherwise the installed packages are queried when the repo field
starts with `'@'`, else the available ones, and the first match (`f[0]`) or
`None` is returned. -/
def _get_po (sack : Sack) (id : PyStr) : Except Unit (Option Pkg) :=
  match splitOnComma id with
  | [n, _e, v, r, a, repo_id] =>
    let q := if repo_id.head? = some '@' then sack.installed else sack.available
    match q.filter (pkgMatches n v r a) with
    | p :: _ => .ok (some p)
    | [] => .ok none
  | _ => .error ()

/-- The `FAKE_ATTR` list of pseudo attributes. -/
def FAKE_ATTR : List String :=
  ["downgrades", "action", "pkgtags", "changelog", "filelist", "updateinfo",
   "requires"]

/-- `DnfDaemonBase.get_attribute(id, attr)`.  The returned
`Except Unit (Option String)` models the JSON payload: `.ok none` is
`json.dumps(None)`, `.ok (some v)` is `json.dumps` of a present value, and
`.error ()` is the propagated `ValueError` of `_get_po` on a malformed id.
`fake` stands for `self._get_fake_attributes(po, attr)`, whose helpers walk
the sack and comps data of the wrapped library and may themselves yield
`None`. -/
def get_attribute (fake : Pkg → String → Option String) (sack : Sack)
    (id : PyStr) (attr : String) : Except Unit (Option String) :=
  match _get_po sack id with
  | .error e => .error e
  | .ok none => .ok none
  | .ok (some po) =>
    if FAKE_ATTR.contains attr then .ok (fake po attr)
    else
      match getAttrVal po.attrs attr with
      | some v => .ok (some v)
      | none => .ok none

/-! ## C10: _handle_gpg_import -/

/-- The argument dict of `_handle_gpg_import`. -/
structure GpgInfo where
  po : Pkg
  userid : String
  hexkeyid : String
  keyurl : String
  timestamp : Int
deriving Repr

/-- One emitted `GPGImport` signal with its five arguments. -/
structure GpgSignal where
  pkg_id : PyStr
  userid : String
  hexkeyid : String
  keyurl : String
  timestamp : Int
deriving DecidableEq, Repr

/-- Dict lookup `self._gpg_confirm[k]` / membership test, on the insertion
ordered association list modelling the dict. -/
def gpgLookup (store : List (String × Bool)) (k : String) : Option Bool :=
  (store.find? (fun p => decide (p.1 = k))).map (fun p => p.2)

/-- `DnfDaemonBase._handle_gpg_import(gpg_info)`: when the key id is not in
`self._gpg_confirm`, record it as `False` and emit the `GPGImport` signal;
then return the stored confirmation.  The result is the updated store, the
list of signals emitted during the call, and the returned boolean. -/
def _handle_gpg_import (store : List (String × Bool)) (info : GpgInfo) :
    List (String × Bool) × List GpgSignal × Bool :=
  match gpgLookup store info.hexkeyid with
  | some b => (store, [], b)
  | none =>
    let store2 := store ++ [(info.hexkeyid, false)]
    (store2,
     [⟨_get_id info.po, info.userid, info.hexkeyid, info.keyurl,
       info.timestamp⟩],
     (gpgLookup store2 info.hexkeyid).getD false)

/-! ## Helper lemmas -/

lemma splitOnCommaAux_append (x : PyStr) (hx : ',' ∉ x) :
    ∀ (rest acc : List Char),
      splitOnCommaAux (x ++ rest) acc = splitOnCommaAux rest (x.reverse ++ acc) := by
  induction x with
  | nil => intro rest acc; rfl
  | cons c cs ih =>
    intro rest acc
    have hc : ¬ c = ',' := fun h => hx (h ▸ List.mem_cons_self c cs)
    have hcs : ',' ∉ cs := fun h => hx (List.mem_cons_of_mem c h)
    simp only [List.cons_append, splitOnCommaAux]
    rw [if_neg hc]
    show splitOnCommaAux (cs ++ rest) (c :: acc) = _
    rw [ih hcs rest (c :: acc)]
    simp

lemma splitOnComma_joinComma (parts : List PyStr) (hne : parts ≠ [])
    (h : ∀ p ∈ parts, ',' ∉ p) :
    splitOnComma (joinComma parts) = parts := by
  induction parts with
  | nil => exact absurd rfl hne
  | cons x xs ih =>
    cases xs with
    | nil =>
      have hx : ',' ∉ x := h x (List.mem_cons_self x [])
      show splitOnComma (joinComma [x]) = [x]
      have := splitOnCommaAux_append x hx [] []
      simpa [splitOnComma, joinComma, splitOnCommaAux] using this
    | cons y ys =>
      have hx : ',' ∉ x := h x (List.mem_cons_self x (y :: ys))
      show splitOnComma (x ++ ',' :: joinComma (y :: ys)) = x :: y :: ys
      unfold splitOnComma
      rw [splitOnCommaAux_append x hx]
      simp only [splitOnCommaAux, if_pos rfl]
      have htail : ∀ p ∈ y :: ys, ',' ∉ p :=
        fun p hp => h p (List.mem_cons_of_mem x hp)
      have := ih (by simp) htail
      simp only [splitOnComma] at this
      simp [this]

lemma digitChar_ne_comma : ∀ d : Nat, d < 10 → digitChar d ≠ ',' := by decide

lemma comma_not_mem_natDigitsAux (n : Nat) :
    ∀ acc : List Char, ',' ∉ acc → ',' ∉ natDigitsAux n acc := by
  induction n using Nat.strong_induction_on with
  | _ n ih =>
    intro acc hacc
    unfold natDigitsAux
    split
    · exact hacc
    · next h =>
      apply ih (n / 10) (Nat.div_lt_self (Nat.pos_of_ne_zero h) (by decide))
      intro hm
      rcases List.mem_cons.mp hm with h1 | h1
      · exact digitChar_ne_comma (n % 10) (Nat.mod_lt _ (by decide)) h1.symm
      · exact hacc h1

lemma comma_not_mem_natStr (n : Nat) : ',' ∉ natStr n := by
  unfold natStr
  split
  · decide
  · exact comma_not_mem_natDigitsAux n [] (by simp)

lemma comma_not_mem_intStr (i : Int) : ',' ∉ intStr i := by
  cases i with
  | ofNat n => exact comma_not_mem_natStr n
  | negSucc n =>
    intro hm
    rcases List.mem_cons.mp hm with h1 | h1
    · exact absurd h1 (by decide)
    · exact comma_not_mem_natStr (n + 1) h1

lemma head?_filter {α : Type} (p : α → Bool) (l : List α) :
    (l.filter p).head? = l.find? p := by
  induction l with
  | nil => rfl
  | cons x xs ih =>
    by_cases h : p x
    · rw [List.filter_cons_of_pos h, List.find?_cons_of_pos _ h]
      rfl
    · rw [List.filter_cons_of_neg h, List.find?_cons_of_neg _ h]
      exact ih

lemma foldl_txStep (ts : List TSItem) (ops : List OpType) :
    ∀ out, (ops.foldl (txStep ts) (out, [])).1 =
      out ++ ops.filterMap (fun op =>
        let g := txGroup ts op
        if g.isEmpty then none else some (actionLabel op, g.map renderTsi)) := by
  induction ops with
  | nil => intro out; simp
  | cons op rest ih =>
    intro out
    rw [List.foldl_cons, List.filterMap_cons]
    cases hg : txGroup ts op with
    | nil =>
      have hstep : txStep ts (out, []) op = (out, []) := by
        simp [txStep, hg]
      rw [hstep, ih out]
      simp [hg]
    | cons t ttail =>
      have hstep : txStep ts (out, []) op =
          (out ++ [(actionLabel op, (txGroup ts op).map renderTsi)], []) := by
        simp [txStep, hg]
      rw [hstep, ih]
      simp [hg]

lemma op_mem_actionOrder (op : OpType) : op ∈ actionOrder := by
  cases op <;> simp [actionOrder]

lemma _get_transaction_eq_spec (ts : List TSItem) :
    _get_transaction ts = get_transaction_spec ts := by
  unfold _get_transaction get_transaction_spec
  rw [foldl_txStep ts actionOrder []]
  simp

lemma get_transaction_spec_nil_iff (ts : List TSItem) :
    get_transaction_spec ts = [] ↔ ts = [] := by
  constructor
  · intro h
    cases hts : ts with
    | nil => rfl
    | cons t rest =>
      exfalso
      unfold get_transaction_spec at h
      rw [List.filterMap_eq_nil_iff] at h
      have hmem := h t.op_type (op_mem_actionOrder t.op_type)
      have htg : t ∈ txGroup ts t.op_type := by
        rw [hts]
        exact List.mem_filter.mpr ⟨List.mem_cons_self t rest, by simp⟩
      cases hg : txGroup ts t.op_type with
      | nil => rw [hg] at htg; exact absurd htg (List.not_mem_nil t)
      | cons a b => rw [hg] at hmem; simp at hmem
  · intro h
    subst h
    rfl

lemma getAttr_find_map_update (l : List (String × String)) (k v : String)
    (h : l.any (fun p => decide (p.1 = k)) = true) :
    (l.map (fun p => if p.1 = k then (k, v) else p)).find?
        (fun p => decide (p.1 = k)) = some (k, v) := by
  induction l with
  | nil => simp at h
  | cons p l ih =>
    rw [List.map_cons]
    by_cases hp : p.1 = k
    · rw [if_pos hp]
      rw [List.find?_cons_of_pos _ (by simp)]
    · rw [if_neg hp]
      rw [List.find?_cons_of_neg _ (by simpa using hp)]
      apply ih
      rw [List.any_cons] at h
      rwa [decide_eq_false hp, Bool.false_or] at h

lemma getAttr_find_append (l : List (String × String)) (k v : String)
    (h : l.any (fun p => decide (p.1 = k)) = false) :
    (l ++ [(k, v)]).find? (fun p => decide (p.1 = k)) = some (k, v) := by
  induction l with
  | nil => simp
  | cons p l ih =>
    rw [List.any_cons] at h
    have hp : decide (p.1 = k) = false := by
      cases hd : decide (p.1 = k)
      · rfl
      · rw [hd] at h
        simp at h
    rw [List.cons_append, List.find?_cons_of_neg _ (by simp [hp])]
    apply ih
    rw [hp] at h
    simpa using h

lemma getAttrVal_setAttrVal (l : List (String × String)) (k v : String) :
    getAttrVal (setAttrVal l k v) k = some v := by
  unfold setAttrVal getAttrVal
  by_cases h : l.any (fun p => decide (p.1 = k)) = true
  · rw [if_pos h, getAttr_find_map_update l k v h]
    rfl
  · have hf : l.any (fun p => decide (p.1 = k)) = false := by
      cases hb : l.any (fun p => decide (p.1 = k))
      · rfl
      · exact absurd hb h
    rw [if_neg h, getAttr_find_append l k v hf]
    rfl

lemma baseProp_preserves_options (fresh : DnfBase) (st : CfgState) :
    (baseProp fresh st).1.config_options = st.config_options := by
  cases hb : st.base? with
  | some b => simp [baseProp, hb]
  | none => simp [baseProp, _get_base, hb]

lemma historyLoop_eq_filter (now dayStart dayEnd : Int)
    (history : List HistTrans)
    (hsorted : history.Pairwise (agesOrdered now)) :
    historyLoop now dayStart dayEnd history =
      history.filter (histQualifies now dayStart dayEnd) := by
  induction history with
  | nil => rfl
  | cons ht rest ih =>
    rw [List.pairwise_cons] at hsorted
    obtain ⟨hhead, htail⟩ := hsorted
    cases hts : ht.end_timestamp with
    | none =>
      simp [historyLoop, hts, List.filter_cons, histQualifies, ih htail]
    | some t =>
      by_cases ht0 : t = 0
      · simp [historyLoop, hts, ht0, List.filter_cons, histQualifies, ih htail]
      · by_cases hlt : deltaDays now t < dayStart
        · have hns : ¬ dayStart ≤ deltaDays now t := by omega
          simp [historyLoop, hts, ht0, hlt, List.filter_cons, histQualifies,
                hns, ih htail]
        · by_cases hgt : deltaDays now t > dayEnd
          · have hq : histQualifies now dayStart dayEnd ht = false := by
              simp [histQualifies, hts]
              intro _ _
              omega
            have hrest : rest.filter (histQualifies now dayStart dayEnd) = [] := by
              rw [List.filter_eq_nil_iff]
              intro b hb
              cases hbs : b.end_timestamp with
              | none => simp [histQualifies, hbs]
              | some tb =>
                have hle := hhead b hb t tb hts hbs
                simp [histQualifies, hbs]
                intro _ _
                omega
            simp [historyLoop, hts, ht0, hlt, hgt, List.filter_cons, hq, hrest]
          · have hq : histQualifies now dayStart dayEnd ht = true := by
              simp [histQualifies, hts, ht0]
              omega
            simp [historyLoop, hts, ht0, hlt, hgt, List.filter_cons, hq,
                  ih htail]

lemma historyLoop_sound (now dayStart dayEnd : Int) :
    ∀ history : List HistTrans, ∀ ht ∈ historyLoop now dayStart dayEnd history,
      ht ∈ history ∧ histQualifies now dayStart dayEnd ht = true := by
  intro history
  induction history with
  | nil => intro ht hmem; exact absurd hmem (List.not_mem_nil ht)
  | cons hd rest ih =>
    intro ht hmem
    cases hts : hd.end_timestamp with
    | none =>
      simp only [historyLoop, hts] at hmem
      obtain ⟨h1, h2⟩ := ih ht hmem
      exact ⟨List.mem_cons_of_mem hd h1, h2⟩
    | some t =>
      simp only [historyLoop, hts] at hmem
      by_cases ht0 : t = 0
      · rw [if_pos ht0] at hmem
        obtain ⟨h1, h2⟩ := ih ht hmem
        exact ⟨List.mem_cons_of_mem hd h1, h2⟩
      · rw [if_neg ht0] at hmem
        by_cases hlt : deltaDays now t < dayStart
        · rw [if_pos hlt] at hmem
          obtain ⟨h1, h2⟩ := ih ht hmem
          exact ⟨List.mem_cons_of_mem hd h1, h2⟩
        · rw [if_neg hlt] at hmem
          by_cases hgt : deltaDays now t > dayEnd
          · rw [if_pos hgt] at hmem
            exact absurd hmem (List.not_mem_nil ht)
          · rw [if_neg hgt] at hmem
            rcases List.mem_cons.mp hmem with rfl | hmem2
            · refine ⟨List.mem_cons_self _ _, ?_⟩
              simp only [histQualifies, hts]
              rw [decide_eq_true ht0]
              rw [decide_eq_true (by omega : dayStart ≤ deltaDays now t)]
              rw [decide_eq_true (by omega : deltaDays now t ≤ dayEnd)]
              rfl
            · obtain ⟨h1, h2⟩ := ih ht hmem2
              exact ⟨List.mem_cons_of_mem hd h1, h2⟩

lemma gpgLookup_append_self (store : List (String × Bool)) (k : String)
    (b : Bool) (h : gpgLookup store k = none) :
    gpgLookup (store ++ [(k, b)]) k = some b := by
  unfold gpgLookup at h ⊢
  induction store with
  | nil => simp
  | cons p l ih =>
    by_cases hp : p.1 = k
    · rw [List.find?_cons_of_pos _ (by simpa using hp)] at h
      simp at h
    · rw [List.find?_cons_of_neg _ (by simpa using hp)] at h
      rw [List.cons_append, List.find?_cons_of_neg _ (by simpa using hp)]
      exact ih h

/-! ## Claim theorems -/

/-- C1: `run_transaction` always returns the (subsequently JSON-serialized)
pair `(rc, msgs)` with `rc = 0` when no error is caught, `rc = 4` on a
download error — `msgs` holding one `"filename : message"` string per
(filename, message) entry of the error map, or the error text when no map is
given — `rc = 1` on a GPG error and `rc = 2` on any other wrapped-library
transaction error, `msgs` carrying the error text in the last two cases. -/
theorem c1_run_transaction_rc :
    run_transaction .success = (0, []) ∧
    (∀ em text, run_transaction (.downloadErr (some em) text) =
      (4, em.flatMap (fun fn => fn.2.map (fun msg => fn.1 ++ " : " ++ msg)))) ∧
    (∀ text, run_transaction (.downloadErr none text) = (4, [text])) ∧
    (∀ text, run_transaction (.gpgErr text) = (1, [text])) ∧
    (∀ text, run_transaction (.otherErr text) = (2, [text])) :=
  ⟨rfl, fun _ _ => rfl, fun _ => rfl, fun _ => rfl, fun _ => rfl⟩

/-- C2: `get_transaction` returns the (subsequently JSON-serialized) pair
`(rc, trans)` where `rc` is true exactly for a non-empty transaction, and
`trans` groups the transaction by action in the fixed order install, update,
remove, reinstall, downgrade, an action appearing iff its package list is
non-empty and each package rendered as (id, size, obsoleted ids). -/
theorem c2_get_transaction (ts : List TSItem) :
    (get_transaction ts).2 = get_transaction_spec ts ∧
    ((get_transaction ts).1 = true ↔ ts ≠ []) := by
  have heq : _get_transaction ts = get_transaction_spec ts :=
    _get_transaction_eq_spec ts
  constructor
  · exact heq
  · show (!(_get_transaction ts).isEmpty) = true ↔ ts ≠ []
    rw [heq]
    constructor
    · intro hb hts
      rw [(get_transaction_spec_nil_iff ts).mpr hts] at hb
      simp at hb
    · intro hts
      cases hsp : get_transaction_spec ts with
      | nil => exact absurd ((get_transaction_spec_nil_iff ts).mp hsp) hts
      | cons a l => simp

/-- C3: a watchdog tick while disabled or working leaves the state unchanged
and stays scheduled; otherwise it increments the counter by one while the
counter has not passed the applicable timeout (20 when no lock is held, 600
when one is held), and once the counter exceeds it the tick resets the base
handle and quits the main loop exactly when `_can_quit` holds (the returned
`false` models the falsy return that unschedules the watchdog). -/
theorem c3_watchdog (s : WatchdogState) :
    ((s.watchdog_disabled = true ∨ s.is_working = true) →
      _watchdog s = (s, true)) ∧
    (s.watchdog_disabled = false → s.is_working = false →
      s.watchdog_count ≤ (if s.lock then _timeout_locked else _timeout_idle) →
      _watchdog s = ({ s with watchdog_count := s.watchdog_count + 1 }, true)) ∧
    (s.watchdog_disabled = false → s.is_working = false →
      s.watchdog_count > (if s.lock then _timeout_locked else _timeout_idle) →
      s.can_quit = true →
      _watchdog s =
        ({ s with base_isSome := false, quit_called := true }, false)) ∧
    (s.watchdog_disabled = false → s.is_working = false →
      s.watchdog_count > (if s.lock then _timeout_locked else _timeout_idle) →
      s.can_quit = false →
      _watchdog s = (s, false)) := by
  refine ⟨?_, ?_, ?_, ?_⟩
  · rintro (h | h) <;> simp [_watchdog, h]
  · intro hd hw hle
    cases hl : s.lock with
    | false =>
      rw [hl] at hle
      rw [if_neg Bool.false_ne_true] at hle
      have hterm : decide (s.watchdog_count > _timeout_idle) = false :=
        decide_eq_false (by omega)
      simp [_watchdog, hd, hw, hl, hterm]
    | true =>
      rw [hl] at hle
      rw [if_pos rfl] at hle
      have hterm : decide (s.watchdog_count > _timeout_locked) = false :=
        decide_eq_false (by omega)
      simp [_watchdog, hd, hw, hl, hterm]
  · intro hd hw hgt hq
    cases hl : s.lock with
    | false =>
      rw [hl] at hgt
      rw [if_neg Bool.false_ne_true] at hgt
      simp [_watchdog, hd, hw, hl, hq, decide_eq_true hgt]
    | true =>
      rw [hl] at hgt
      rw [if_pos rfl] at hgt
      simp [_watchdog, hd, hw, hl, hq, decide_eq_true hgt]
  · intro hd hw hgt hq
    cases hl : s.lock with
    | false =>
      rw [hl] at hgt
      rw [if_neg Bool.false_ne_true] at hgt
      simp [_watchdog, hd, hw, hl, hq, decide_eq_true hgt]
    | true =>
      rw [hl] at hgt
      rw [if_pos rfl] at hgt
      simp [_watchdog, hd, hw, hl, hq, decide_eq_true hgt]

/-- Witness for C3: a disabled tick at count 5 stays put; an idle unlocked
tick at count 21 (> 20) with `_can_quit` resets the base and quits. -/
theorem c3_watchdog_witness :
    _watchdog ⟨false, false, true, true, 5, true, false⟩ =
      (⟨false, false, true, true, 5, true, false⟩, true) ∧
    _watchdog ⟨false, false, false, true, 21, true, false⟩ =
      (⟨false, false, false, true, 21, false, true⟩, false) :=
  ⟨(c3_watchdog _).1 (Or.inl rfl),
   (c3_watchdog _).2.2.1 rfl rfl (by decide) rfl⟩

/-- C4: accessing the `base` property constructs the handle — applying every
cached config option and the recorded repo enable/disable state, then loading
the sack — exactly when `_base` is unset, returns the stored handle unchanged
when it is set, and in both cases the returned value is the stored, non-None
`_base`. -/
theorem c4_base_property (fresh : DnfBase) (st : CfgState) :
    (baseProp fresh st).1.base? = some (baseProp fresh st).2 ∧
    (∀ b, st.base? = some b → baseProp fresh st = (st, b)) ∧
    (st.base? = none →
      (baseProp fresh st).2 = setup_base (freshlyBuiltBase fresh st)) := by
  refine ⟨?_, ?_, ?_⟩
  · cases hb : st.base? with
    | some b => simp [baseProp, hb]
    | none => simp [baseProp, hb, _get_base]
  · intro b hb
    simp [baseProp, hb]
  · intro hb
    simp only [baseProp, hb, _get_base]
    unfold freshlyBuiltBase setup_base
    rfl

/-- A concrete freshly constructed handle, used by the witnesses and the C5
counterexample: one enabled repo `main`, one disabled repo `extra`. -/
def fresh0 : DnfBase :=
  ⟨[("debuglevel", "2")],
   [⟨"main", true, [("gpgcheck", "1")]⟩, ⟨"extra", false, []⟩],
   false⟩

/-- A concrete daemon state with no cached handle, options or repo list. -/
def st0 : CfgState := ⟨none, [], []⟩

/-- Witness for C4: at `st0` the property builds the handle; with a handle
already stored it is returned unchanged. -/
theorem c4_base_property_witness :
    (baseProp fresh0 st0).2 = setup_base (freshlyBuiltBase fresh0 st0) ∧
    baseProp fresh0 ⟨some fresh0, [], []⟩ = (⟨some fresh0, [], []⟩, fresh0) :=
  ⟨(c4_base_property fresh0 st0).2.2 rfl,
   (c4_base_property fresh0 ⟨some fresh0, [], []⟩).2.1 fresh0 rfl⟩

/-- The C5 claim, as stated, at given inputs: after `set_enabled_repos`
returns, the stored list equals `repo_ids` and every repo of the rebuilt base
is enabled iff its id is in `repo_ids`. -/
def c5_claim (fresh : DnfBase) (st : CfgState) (repo_ids : List String) :
    Prop :=
  (set_enabled_repos fresh st repo_ids).enabled_repos = repo_ids ∧
  ∀ b, (set_enabled_repos fresh st repo_ids).base? = some b →
    ∀ r ∈ b.repos, (r.enabled = true ↔ r.id ∈ repo_ids)

/-- Counterexample to C5 as stated: with `repo_ids = []` the repo
enable/disable loop of `_get_base` is skipped (`if self._enabled_repos:`), so
the default-enabled repo `main` of the fresh handle stays enabled although
`"main" ∉ []`. -/
theorem c5_counterexample : ¬ c5_claim fresh0 st0 [] := by
  intro h
  have h2 := h.2 (setup_base fresh0) rfl ⟨"main", true, [("gpgcheck", "1")]⟩
    (by simp [fresh0, setup_base])
  exact absurd (h2.mp rfl) (List.not_mem_nil "main")

/-- C5 (amended: for a non-empty `repo_ids`; an empty list skips the repo
loop of `_get_base` and leaves the fresh handle's default enablement): after
`set_enabled_repos(repo_ids)` the stored list equals `repo_ids` and the
handle has been rebuilt, sack loaded, with exactly the listed repos
enabled. -/
theorem c5_set_enabled_repos (fresh : DnfBase) (st : CfgState)
    (repo_ids : List String) (hne : repo_ids ≠ []) :
    (set_enabled_repos fresh st repo_ids).enabled_repos = repo_ids ∧
    ∃ b, (set_enabled_repos fresh st repo_ids).base? = some b ∧
      b.sack_loaded = true ∧
      ∀ r ∈ b.repos, r.enabled = repo_ids.contains r.id := by
  obtain ⟨rid, rids, rfl⟩ : ∃ x xs, repo_ids = x :: xs := by
    cases repo_ids with
    | nil => exact absurd rfl hne
    | cons a l => exact ⟨a, l, rfl⟩
  refine ⟨rfl, setup_base (applyEnabledRepos (rid :: rids)
    (applyConfigOptions st.config_options fresh)), rfl, rfl, ?_⟩
  intro r hr
  simp only [setup_base, applyEnabledRepos] at hr
  rcases List.mem_map.mp hr with ⟨r0, _, rfl⟩
  cases hc : (rid :: rids).contains r0.id with
  | false =>
    rw [if_neg Bool.false_ne_true]
    exact hc.symm
  | true =>
    rw [if_pos rfl]
    exact hc.symm

/-- Witness for C5 (amended): enabling exactly `extra` on the concrete
state. -/
theorem c5_set_enabled_repos_witness :
    (set_enabled_repos fresh0 st0 ["extra"]).enabled_repos = ["extra"] ∧
    ∃ b, (set_enabled_repos fresh0 st0 ["extra"]).base? = some b ∧
      b.sack_loaded = true ∧
      ∀ r ∈ b.repos, r.enabled = ["extra"].contains r.id :=
  c5_set_enabled_repos fresh0 st0 ["extra"] (by simp)

/-- C6: `set_option` always records the decoded value in the option cache,
returns true exactly when the base config object (as obtained through the
`base` property after the cache write) has the attribute, and when it
returns true the value has been set on the base config and on every enabled
repository that has the attribute. -/
theorem c6_set_option (fresh : DnfBase) (st : CfgState)
    (option value : String) :
    getAttrVal (setOption fresh st option value).1.config_options option =
      some value ∧
    ((setOption fresh st option value).2 = true ↔
      hasAttr (baseProp fresh (cacheOption st option value)).2.conf option =
        true) ∧
    ((setOption fresh st option value).2 = true →
      ∃ b, (setOption fresh st option value).1.base? = some b ∧
        getAttrVal b.conf option = some value ∧
        ∀ r ∈ b.repos, r.enabled = true → hasAttr r.attrs option = true →
          getAttrVal r.attrs option = some value) := by
  cases hcond :
      hasAttr (baseProp fresh (cacheOption st option value)).2.conf option with
  | true =>
    have hres : setOption fresh st option value =
        ({ (baseProp fresh (cacheOption st option value)).1 with
            base? := some (setOptionBase
              (baseProp fresh (cacheOption st option value)).2 option value) },
         true) := by
      simp only [setOption]
      rw [hcond]
      rfl
    refine ⟨?_, ?_, ?_⟩
    · rw [hres]
      show getAttrVal
          (baseProp fresh (cacheOption st option value)).1.config_options
          option = some value
      rw [baseProp_preserves_options]
      exact getAttrVal_setAttrVal st.config_options option value
    · rw [hres]
    · intro _
      refine ⟨setOptionBase
        (baseProp fresh (cacheOption st option value)).2 option value,
        by rw [hres], getAttrVal_setAttrVal _ option value, ?_⟩
      intro r hr
      rcases List.mem_map.mp hr with ⟨r0, _, rfl⟩
      by_cases hcnd : (r0.enabled && hasAttr r0.attrs option) = true
      · rw [if_pos hcnd]
        intro _ _
        exact getAttrVal_setAttrVal r0.attrs option value
      · rw [if_neg hcnd]
        intro hen hha
        exact absurd (by rw [hen, hha]; rfl) hcnd
  | false =>
    have hres : setOption fresh st option value =
        ((baseProp fresh (cacheOption st option value)).1, false) := by
      simp only [setOption]
      rw [hcond]
      rfl
    refine ⟨?_, ?_, ?_⟩
    · rw [hres]
      show getAttrVal
          (baseProp fresh (cacheOption st option value)).1.config_options
          option = some value
      rw [baseProp_preserves_options]
      exact getAttrVal_setAttrVal st.config_options option value
    · rw [hres]
    · intro h
      rw [hres] at h
      exact absurd h Bool.false_ne_true

/-- Witness for C6: setting `debuglevel` on the concrete state caches it,
returns true and writes it through to the constructed handle. -/
theorem c6_set_option_witness :
    getAttrVal (setOption fresh0 st0 "debuglevel" "8").1.config_options
      "debuglevel" = some "8" ∧
    ∃ b, (setOption fresh0 st0 "debuglevel" "8").1.base? = some b ∧
      getAttrVal b.conf "debuglevel" = some "8" ∧
      ∀ r ∈ b.repos, r.enabled = true → hasAttr r.attrs "debuglevel" = true →
        getAttrVal r.attrs "debuglevel" = some "8" :=
  ⟨(c6_set_option fresh0 st0 "debuglevel" "8").1,
   (c6_set_option fresh0 st0 "debuglevel" "8").2.2 (by decide)⟩

/-- C7 (amended: the "contains exactly the qualifying transactions" part
holds provided ages are non-decreasing along the history list, i.e. newest
first, because the loop stops with `break` at the first entry older than
`end`): on any history list, every returned pair corresponds to a history
transaction with a truthy end timestamp whose age in whole days lies between
`start` and `end` inclusive; and under that ordering the result lists
exactly the qualifying transactions, in history order. -/
theorem c7_get_history_by_days (iso : Int → String) (now dayStart dayEnd : Int)
    (history : List HistTrans) :
    (∀ p ∈ get_history_by_days iso now history dayStart dayEnd,
       ∃ ht ∈ history, histQualifies now dayStart dayEnd ht = true ∧
         p = (ht.tid, iso (ht.end_timestamp.getD 0))) ∧
    (history.Pairwise (agesOrdered now) →
      get_history_by_days iso now history dayStart dayEnd =
        _get_id_time_list iso
          (history.filter (histQualifies now dayStart dayEnd))) := by
  constructor
  · intro p hp
    unfold get_history_by_days _get_id_time_list at hp
    rcases List.mem_map.mp hp with ⟨ht, hmem, rfl⟩
    obtain ⟨h1, h2⟩ := historyLoop_sound now dayStart dayEnd history ht hmem
    exact ⟨ht, h1, h2, rfl⟩
  · intro hsorted
    unfold get_history_by_days
    rw [historyLoop_eq_filter now dayStart dayEnd history hsorted]

/-- A stand-in for the standard library's
`datetime.fromtimestamp(t).isoformat()`, kept abstract: any injective
rendering works for the claims, so the decimal rendering is used. -/
def iso0 : Int → String := fun t => toString t

/-- Concrete history entries for the C7 witness and counterexample: `histA`
is 9 days old, `histB` is less than one day old and `histC` is exactly one
day old at `now = 864000`. -/
def histA : HistTrans := ⟨1, some 86400⟩

def histB : HistTrans := ⟨2, some 777700⟩

def histC : HistTrans := ⟨3, some 777600⟩

/-- Witness for C7: the soundness part exercised on an unordered history
(`histC` is returned before the loop breaks at `histA`), and the exactness
part on a newest-first history, its non-decreasing ages discharged
concretely. -/
theorem c7_get_history_by_days_witness :
    (∃ ht ∈ [histC, histA, histB], histQualifies 864000 0 1 ht = true ∧
       ((3 : Nat), iso0 777600) = (ht.tid, iso0 (ht.end_timestamp.getD 0))) ∧
    get_history_by_days iso0 864000 [histB, histA] 0 1 =
      _get_id_time_list iso0
        ([histB, histA].filter (histQualifies 864000 0 1)) :=
  ⟨(c7_get_history_by_days iso0 864000 0 1 [histC, histA, histB]).1
      ((3 : Nat), iso0 777600) (by decide),
   (c7_get_history_by_days iso0 864000 0 1 [histB, histA]).2 (by
    constructor
    · intro b hb
      simp at hb
      subst hb
      intro ta tb hta htb
      simp [histB] at hta
      simp [histA] at htb
      subst hta
      subst htb
      decide
    · simp)⟩

/-- Counterexample to C7 as stated: on a history list whose first entry is
already older than `end`, the loop breaks immediately and the qualifying
entry `histB` behind it is never returned. -/
theorem c7_counterexample :
    get_history_by_days iso0 864000 [histA, histB] 0 1 = [] ∧
    histB ∈ [histA, histB] ∧
    histQualifies 864000 0 1 histB = true ∧
    get_history_by_days iso0 864000 [histA, histB] 0 1 ≠
      _get_id_time_list iso0
        ([histA, histB].filter (histQualifies 864000 0 1)) := by
  refine ⟨rfl, by simp, rfl, ?_⟩
  decide

lemma _get_po_of_split (sack : Sack) (id : PyStr) (n e v r a repo : PyStr)
    (h : splitOnComma id = [n, e, v, r, a, repo]) :
    _get_po sack id =
      .ok ((if repo.head? = some '@' then sack.installed
            else sack.available).find? (pkgMatches n v r a)) := by
  unfold _get_po
  rw [h, ← head?_filter]
  show (match (if repo.head? = some '@' then sack.installed
               else sack.available).filter (pkgMatches n v r a) with
        | p :: _ => Except.ok (some p)
        | [] => Except.ok none) = _
  cases hf : (if repo.head? = some '@' then sack.installed
              else sack.available).filter (pkgMatches n v r a) with
  | nil => rfl
  | cons p l => rfl

/-- C8: for a package whose fields contain no comma, `_get_id` yields a
six-field comma-joined id that `_get_po` parses back into the same six
fields; the lookup then queries the installed set when the repo field starts
with `'@'` and the available set otherwise, ignores the epoch field, and
returns a package matching on name, version, release and arch when one is in
the queried set, and None otherwise. -/
theorem c8_get_id_get_po (sack : Sack) (pkg : Pkg)
    (hn : ',' ∉ pkg.name) (hv : ',' ∉ pkg.version) (hr : ',' ∉ pkg.release)
    (ha : ',' ∉ pkg.arch) (hrepo : ',' ∉ pkg.ui_from_repo) :
    splitOnComma (_get_id pkg) =
      [pkg.name, intStr pkg.epoch, pkg.version, pkg.release, pkg.arch,
       pkg.ui_from_repo] ∧
    _get_po sack (_get_id pkg) =
      .ok ((if pkg.ui_from_repo.head? = some '@' then sack.installed
            else sack.available).find?
        (pkgMatches pkg.name pkg.version pkg.release pkg.arch)) ∧
    (∀ p, (if pkg.ui_from_repo.head? = some '@' then sack.installed
           else sack.available).find?
        (pkgMatches pkg.name pkg.version pkg.release pkg.arch) = some p →
      pkgMatches pkg.name pkg.version pkg.release pkg.arch p = true) ∧
    ((∀ p ∈ (if pkg.ui_from_repo.head? = some '@' then sack.installed
             else sack.available),
        pkgMatches pkg.name pkg.version pkg.release pkg.arch p = false) →
      _get_po sack (_get_id pkg) = .ok none) := by
  have hsplit : splitOnComma (_get_id pkg) =
      [pkg.name, intStr pkg.epoch, pkg.version, pkg.release, pkg.arch,
       pkg.ui_from_repo] := by
    unfold _get_id
    refine splitOnComma_joinComma _ (by simp) ?_
    intro p hp
    simp only [List.mem_cons, List.not_mem_nil, or_false] at hp
    rcases hp with rfl | rfl | rfl | rfl | rfl | rfl
    exacts [hn, comma_not_mem_intStr pkg.epoch, hv, hr, ha, hrepo]
  have hpo := _get_po_of_split sack (_get_id pkg) pkg.name
    (intStr pkg.epoch) pkg.version pkg.release pkg.arch pkg.ui_from_repo
    hsplit
  refine ⟨hsplit, hpo, ?_, ?_⟩
  · intro p hfind
    exact List.find?_some hfind
  · intro hall
    rw [hpo]
    rw [List.find?_eq_none.mpr]
    intro p hp
    rw [hall p hp]
    exact Bool.false_ne_true

/-- A concrete installed package (its repo field `"@m"` marks it as
installed) used by the C8, C9 and C10 witnesses. -/
def pkg0 : Pkg := ⟨['f', 'o', 'o'], 0, ['1'], ['2'], ['x'], ['@', 'm'], 10, []⟩

/-- A concrete sack holding only `pkg0` as installed. -/
def sack0 : Sack := ⟨[pkg0], []⟩

/-- Witness for C8 at `pkg0` and `sack0`. -/
theorem c8_get_id_get_po_witness :
    splitOnComma (_get_id pkg0) =
      [pkg0.name, intStr pkg0.epoch, pkg0.version, pkg0.release, pkg0.arch,
       pkg0.ui_from_repo] ∧
    _get_po sack0 (_get_id pkg0) =
      .ok ((if pkg0.ui_from_repo.head? = some '@' then sack0.installed
            else sack0.available).find?
        (pkgMatches pkg0.name pkg0.version pkg0.release pkg0.arch)) ∧
    (∀ p, (if pkg0.ui_from_repo.head? = some '@' then sack0.installed
           else sack0.available).find?
        (pkgMatches pkg0.name pkg0.version pkg0.release pkg0.arch) = some p →
      pkgMatches pkg0.name pkg0.version pkg0.release pkg0.arch p = true) ∧
    ((∀ p ∈ (if pkg0.ui_from_repo.head? = some '@' then sack0.installed
             else sack0.available),
        pkgMatches pkg0.name pkg0.version pkg0.release pkg0.arch p = false) →
      _get_po sack0 (_get_id pkg0) = .ok none) :=
  c8_get_id_get_po sack0 pkg0 (by decide) (by decide) (by decide) (by decide)
    (by decide)

lemma exists_six_of_length {α : Type} (l : List α) (h : l.length = 6) :
    ∃ a b c d e f, l = [a, b, c, d, e, f] := by
  rcases l with _ | ⟨a, _ | ⟨b, _ | ⟨c, _ | ⟨d, _ | ⟨e, _ | ⟨f, _ | ⟨g, l⟩⟩⟩⟩⟩⟩⟩ <;>
    simp at h
  exact ⟨a, b, c, d, e, f, rfl⟩

/-- The fake-attribute resolver used in concrete examples: every pseudo
attribute resolves to None. -/
def fake0 : Pkg → String → Option String := fun _ _ => none

/-- Counterexample to C9 as stated: the unresolvable id `"foo"` makes
`id.split(',')` unpack fail, so `get_attribute` propagates a `ValueError`
(modelled `.error ()`) instead of returning the JSON serialization of None
(modelled `.ok none`). -/
theorem c9_counterexample :
    get_attribute fake0 sack0 ['f', 'o', 'o'] "summary" = .error () ∧
    get_attribute fake0 sack0 ['f', 'o', 'o'] "summary" ≠ .ok none :=
  ⟨rfl, fun h => nomatch h⟩

/-- C9 (amended: for ids whose comma-split has exactly six fields; a
malformed id raises a `ValueError` from the tuple unpack in `_get_po`
instead): `get_attribute` never raises, returns JSON None when the id
resolves to no package, and returns JSON None when the resolved package has
neither a fake attribute nor a real attribute of the requested name. -/
theorem c9_get_attribute (fake : Pkg → String → Option String) (sack : Sack)
    (id : PyStr) (attr : String) (h6 : (splitOnComma id).length = 6) :
    (∃ res, get_attribute fake sack id attr = .ok res) ∧
    (_get_po sack id = .ok none → get_attribute fake sack id attr = .ok none) ∧
    (∀ po, _get_po sack id = .ok (some po) →
      FAKE_ATTR.contains attr = false → getAttrVal po.attrs attr = none →
      get_attribute fake sack id attr = .ok none) := by
  obtain ⟨n, e, v, r, a, repo, hs⟩ := exists_six_of_length (splitOnComma id) h6
  have hpo := _get_po_of_split sack id n e v r a repo hs
  refine ⟨?_, ?_, ?_⟩
  · unfold get_attribute
    rw [hpo]
    cases hfind : (if repo.head? = some '@' then sack.installed
                   else sack.available).find? (pkgMatches n v r a) with
    | none => exact ⟨none, rfl⟩
    | some po =>
      show ∃ res, (if FAKE_ATTR.contains attr then Except.ok (fake po attr)
                   else match getAttrVal po.attrs attr with
                        | some v2 => Except.ok (some v2)
                        | none => Except.ok none) = Except.ok res
      by_cases hf : FAKE_ATTR.contains attr = true
      · exact ⟨fake po attr, by rw [if_pos hf]⟩
      · rw [if_neg hf]
        cases hga : getAttrVal po.attrs attr with
        | some v2 => exact ⟨some v2, rfl⟩
        | none => exact ⟨none, rfl⟩
  · intro hnone
    unfold get_attribute
    rw [hnone]
  · intro po hsome hf hga
    unfold get_attribute
    rw [hsome]
    show (if FAKE_ATTR.contains attr then Except.ok (fake po attr)
          else match getAttrVal po.attrs attr with
               | some v2 => Except.ok (some v2)
               | none => Except.ok none) = Except.ok none
    rw [if_neg (by rw [hf]; exact Bool.false_ne_true), hga]

/-- Witness for C9 (amended) at the six-field id of `pkg0` and an attribute
absent from both the fake list and the package. -/
theorem c9_get_attribute_witness :
    (∃ res, get_attribute fake0 sack0 (_get_id pkg0) "summary" = .ok res) ∧
    (_get_po sack0 (_get_id pkg0) = .ok none →
      get_attribute fake0 sack0 (_get_id pkg0) "summary" = .ok none) ∧
    (∀ po, _get_po sack0 (_get_id pkg0) = .ok (some po) →
      FAKE_ATTR.contains "summary" = false →
      getAttrVal po.attrs "summary" = none →
      get_attribute fake0 sack0 (_get_id pkg0) "summary" = .ok none) :=
  c9_get_attribute fake0 sack0 (_get_id pkg0) "summary" (by decide)

/-- C10: a call to `_handle_gpg_import` with a key id not in the confirm
store records it as unconfirmed, emits the `GPGImport` signal exactly once
with the package id and key data, and returns False; the call only returns
True when the key was already recorded as confirmed before the call. -/
theorem c10_handle_gpg_import (store : List (String × Bool)) (info : GpgInfo) :
    (gpgLookup store info.hexkeyid = none →
      _handle_gpg_import store info =
        (store ++ [(info.hexkeyid, false)],
         [⟨_get_id info.po, info.userid, info.hexkeyid, info.keyurl,
           info.timestamp⟩], false)) ∧
    (gpgLookup store info.hexkeyid = none →
      gpgLookup (_handle_gpg_import store info).1 info.hexkeyid =
        some false) ∧
    ((_handle_gpg_import store info).2.2 = true →
      gpgLookup store info.hexkeyid = some true) := by
  have h1 : gpgLookup store info.hexkeyid = none →
      _handle_gpg_import store info =
        (store ++ [(info.hexkeyid, false)],
         [⟨_get_id info.po, info.userid, info.hexkeyid, info.keyurl,
           info.timestamp⟩], false) := by
    intro h
    unfold _handle_gpg_import
    rw [h]
    show (store ++ [(info.hexkeyid, false)],
          ([⟨_get_id info.po, info.userid, info.hexkeyid, info.keyurl,
            info.timestamp⟩] : List GpgSignal),
          (gpgLookup (store ++ [(info.hexkeyid, false)])
            info.hexkeyid).getD false) = _
    rw [gpgLookup_append_self store info.hexkeyid false h]
    rfl
  refine ⟨h1, ?_, ?_⟩
  · intro h
    rw [h1 h]
    exact gpgLookup_append_self store info.hexkeyid false h
  · intro hret
    cases hl : gpgLookup store info.hexkeyid with
    | some b =>
      have hres : (_handle_gpg_import store info).2.2 = b := by
        unfold _handle_gpg_import
        rw [hl]
      rw [hres] at hret
      rw [hret]
    | none =>
      have hres : (_handle_gpg_import store info).2.2 = false := by
        rw [h1 hl]
      rw [hres] at hret
      exact absurd hret Bool.false_ne_true

/-- A concrete gpg key import request for the C10 witness. -/
def info0 : GpgInfo := ⟨pkg0, "user", "ABCD1234", "url", 42⟩

/-- Witness for C10: importing an unseen key on an empty store. -/
theorem c10_handle_gpg_import_witness :
    _handle_gpg_import [] info0 =
      ([("ABCD1234", false)],
       [⟨_get_id pkg0, "user", "ABCD1234", "url", 42⟩], false) :=
  (c10_handle_gpg_import [] info0).1 rfl

end Dnfdaemon
